import Mathlib

/-!
Shallow embedding of the numerical core of the BTC-premia repository
(`src/utils/math_utils.py`): SVI smile evaluation and no-arbitrage
constraint checking, finite-difference derivatives of an implied-volatility
curve, trapezoidal integration, density moments, density interpolation and
normalization, and the Bitcoin premium.

Modelling conventions: numpy 1-D arrays are `List ℝ`, numpy floats are real
numbers.  Python exceptions that the relevant code paths can raise
(numpy broadcast errors, tuple-unpacking errors, division by zero) are
modelled by `Option`: `none` stands for a raised exception.
-/

noncomputable section

/-- The trapezoidal rule `np.trapezoid y x` over parallel lists: the sum of
`(x[i+1] - x[i]) * (y[i] + y[i+1]) / 2` over consecutive index pairs. -/
def trapezoid : List ℝ → List ℝ → ℝ
  | y0 :: y1 :: ys, x0 :: x1 :: xs =>
      (x1 - x0) * (y0 + y1) / 2 + trapezoid (y1 :: ys) (x1 :: xs)
  | _, _ => 0

/-- One-dimensional numpy broadcasting of a binary operation: equal lengths
act elementwise, a length-1 operand is stretched to the other operand's
length, and any other shape combination raises (`none`). -/
def broadcast1d (f : ℝ → ℝ → ℝ) (a b : List ℝ) : Option (List ℝ) :=
  if a.length = b.length then some (List.zipWith f a b)
  else if a.length = 1 then some (b.map (f (a.getD 0 0)))
  else if b.length = 1 then some (a.map (fun x => f x (b.getD 0 0)))
  else none

/-- Python tuple unpacking `a, b, rho, m, sigma = arr`: succeeds exactly on
arrays of length 5, raises otherwise. -/
def unpack5 : List ℝ → Option (ℝ × ℝ × ℝ × ℝ × ℝ)
  | [a, b, c, d, e] => some (a, b, c, d, e)
  | _ => none

/-- The effective SVI parameters `base_params + ttm_coeffs * tau` shared by
`svi_model` and `check_svi_constraints`: slice `theta[:5]` and `theta[5:]`,
broadcast-add the slope block scaled by `tau`, and unpack the result into
five scalars.  `none` models the ValueError raised by a failed broadcast or
a failed unpacking. -/
def effectiveParams (theta : List ℝ) (tau : ℝ) : Option (ℝ × ℝ × ℝ × ℝ × ℝ) :=
  (broadcast1d (fun x y => x + y) (theta.take 5)
      ((theta.drop 5).map (fun c => c * tau))).bind unpack5

/-- `svi_model(theta, k, tau)`: effective parameters `base + slope * tau`,
then `a + b*(rho*(k - m) + sqrt((k - m)**2 + sigma**2))` pointwise over the
log-moneyness grid `k`. -/
def svi_model (theta k : List ℝ) (tau : ℝ) : Option (List ℝ) :=
  match effectiveParams theta tau with
  | none => none
  | some (a, b, rho, m, sigma) =>
      some (k.map (fun x =>
        a + b * (rho * (x - m) + Real.sqrt ((x - m) ^ 2 + sigma ^ 2))))

/-- `check_svi_constraints(theta, ttm_values)`: for each maturity in order,
compute the effective parameters and test the four no-arbitrage conditions
in the order written in the source, returning `False` on the first
violation and `True` when every maturity passes. -/
def check_svi_constraints (theta : List ℝ) (ttm_values : List ℝ) : Option Bool :=
  match ttm_values with
  | [] => some true
  | ttm :: rest =>
      match effectiveParams theta ttm with
      | none => none
      | some (a, b, rho, _m, sigma) =>
          if b ≤ 0 then some false
          else if 1 ≤ |rho| then some false
          else if sigma ≤ 0 then some false
          else if a + b * sigma * Real.sqrt (1 - rho ^ 2) ≤ 0 then some false
          else check_svi_constraints theta rest

/-- Effective SVI parameter `a` at maturity `tau` of a 10-entry vector. -/
def effA (theta : List ℝ) (tau : ℝ) : ℝ := theta.getD 0 0 + theta.getD 5 0 * tau

/-- Effective SVI parameter `b` at maturity `tau` of a 10-entry vector. -/
def effB (theta : List ℝ) (tau : ℝ) : ℝ := theta.getD 1 0 + theta.getD 6 0 * tau

/-- Effective SVI parameter `rho` at maturity `tau` of a 10-entry vector. -/
def effRho (theta : List ℝ) (tau : ℝ) : ℝ := theta.getD 2 0 + theta.getD 7 0 * tau

/-- Effective SVI parameter `m` at maturity `tau` of a 10-entry vector. -/
def effM (theta : List ℝ) (tau : ℝ) : ℝ := theta.getD 3 0 + theta.getD 8 0 * tau

/-- Effective SVI parameter `sigma` at maturity `tau` of a 10-entry vector. -/
def effSigma (theta : List ℝ) (tau : ℝ) : ℝ := theta.getD 4 0 + theta.getD 9 0 * tau

/-- The four no-arbitrage conditions that `check_svi_constraints` verifies at
one maturity: `b > 0`, `|rho| < 1`, `sigma > 0` and
`a + b*sigma*sqrt(1 - rho^2) > 0`. -/
def sviOK (theta : List ℝ) (tau : ℝ) : Prop :=
  0 < effB theta tau ∧ |effRho theta tau| < 1 ∧ 0 < effSigma theta tau ∧
    0 < effA theta tau +
        effB theta tau * effSigma theta tau * Real.sqrt (1 - effRho theta tau ^ 2)

/-- `compute_iv_derivatives(iv, log_ret)`: central differences in the
interior, one-sided two-point stencils for the first derivative at the
edges, and edge-anchored three-point stencils for the second derivative at
the edges.  The numpy code first fills the interior slice and then
overwrites the two boundary entries; for arrays of length at least 3 the
branches below reproduce the final array exactly (shorter arrays raise an
IndexError in Python and are outside the claims considered here). -/
def compute_iv_derivatives (iv log_ret : List ℝ) : List ℝ × List ℝ :=
  let n := iv.length
  let ivD := fun i => iv.getD i 0
  let lrD := fun i => log_ret.getD i 0
  let div_dr := List.ofFn (fun i : Fin n =>
    if (i : ℕ) = 0 then (ivD 1 - ivD 0) / (lrD 1 - lrD 0)
    else if (i : ℕ) = n - 1 then
      (ivD (n - 1) - ivD (n - 2)) / (lrD (n - 1) - lrD (n - 2))
    else (ivD ((i : ℕ) + 1) - ivD ((i : ℕ) - 1)) /
      (lrD ((i : ℕ) + 1) - lrD ((i : ℕ) - 1)))
  let d2iv_dr2 := List.ofFn (fun i : Fin n =>
    if (i : ℕ) = 0 then (ivD 2 - 2 * ivD 1 + ivD 0) / (lrD 1 - lrD 0) ^ 2
    else if (i : ℕ) = n - 1 then
      (ivD (n - 1) - 2 * ivD (n - 2) + ivD (n - 3)) / (lrD (n - 1) - lrD (n - 2)) ^ 2
    else (ivD ((i : ℕ) + 1) - 2 * ivD (i : ℕ) + ivD ((i : ℕ) - 1)) /
      (lrD ((i : ℕ) + 1) - lrD ((i : ℕ) - 1)) ^ 2)
  (div_dr, d2iv_dr2)

/-- `compute_density_moments(ret, density, ttm)`: first raw moment and
second to sixth central moments by trapezoidal quadrature, each scaled by
`365 / ttm`.  The division `365 / ttm` raises ZeroDivisionError in Python
exactly when `ttm = 0`, modelled by `none`; any non-zero `ttm`, including
negative ones, is accepted silently. -/
def compute_density_moments (ret density : List ℝ) (ttm : ℝ) :
    Option (ℝ × ℝ × ℝ × ℝ × ℝ × ℝ) :=
  let m1 := trapezoid (List.zipWith (fun d r => d * r) density ret) ret
  let cm := fun (p : ℕ) =>
    trapezoid (List.zipWith (fun d r => d * (r - m1) ^ p) density ret) ret
  if ttm = 0 then none
  else
    let scaling := 365 / ttm
    some (m1 * scaling, cm 2 * scaling, cm 3 * scaling, cm 4 * scaling,
      cm 5 * scaling, cm 6 * scaling)

/-- `normalize_density(density, returns)`: rescale by the reciprocal of the
trapezoidal integral when that integral is strictly positive, otherwise
return the density unchanged. -/
def normalize_density (density returns : List ℝ) : List ℝ :=
  let integral := trapezoid density returns
  if 0 < integral then density.map (fun v => v / integral) else density

/-- `calculate_bitcoin_premium(ret, p_density, q_density, ttm, risk_free_rate)`:
annualized difference of the P- and Q-expected returns; with no Q density
(`q_density is None`) the Q expectation falls back to
`risk_free_rate * ttm / 365`. -/
def calculate_bitcoin_premium (ret p_density : List ℝ) (q_density : Option (List ℝ))
    (ttm risk_free_rate : ℝ) : ℝ :=
  let e_p := trapezoid (List.zipWith (fun x p => x * p) ret p_density) ret
  let e_q :=
    match q_density with
    | some q => trapezoid (List.zipWith (fun x qv => x * qv) ret q) ret
    | none => risk_free_rate * ttm / 365
  (e_p - e_q) * 365 / ttm

/-- Modelled from the spec: scipy `PchipInterpolator(returns, density,
extrapolate=False)` (library code, not part of this repository) evaluates to
NaN strictly outside the interval from the first to the last grid point;
NaN is represented by `none`, and the in-domain shape-preserving cubic value
is abstracted by the function argument `pchipVal`, since no claim considered
here depends on in-domain values. -/
def pchipInterpolate (returns : List ℝ) (pchipVal : ℝ → ℝ) (t : ℝ) : Option ℝ :=
  match returns.head?, returns.getLast? with
  | some x0, some xn => if t < x0 ∨ xn < t then none else some (pchipVal t)
  | _, _ => none

/-- Modelled from the spec: `np.interp(t, xp, fp, left=0, right=0)` (numpy
library code, not part of this repository): piecewise-linear interpolation on
an increasing grid, with fill value 0 to the left of the first point and to
the right of the last point.  The grid and the values are passed zipped. -/
def npInterp (t : ℝ) : List (ℝ × ℝ) → ℝ
  | [] => 0
  | [(x0, y0)] => if t < x0 then 0 else if x0 < t then 0 else y0
  | (x0, y0) :: (x1, y1) :: rest =>
      if t < x0 then 0
      else if t ≤ x1 then y0 + (y1 - y0) * (t - x0) / (x1 - x0)
      else npInterp t ((x1, y1) :: rest)

/-- `interpolate_density(returns, density, new_returns, method)`: the pchip
branch evaluates the non-extrapolating pchip interpolant and coerces the NaN
produced outside the original domain to 0; every other method string takes
the `np.interp` branch with fill value 0 on both sides.  `pchipVal` is the
abstracted in-domain pchip value (see `pchipInterpolate`). -/
def interpolate_density (returns density new_returns : List ℝ) (method : String)
    (pchipVal : ℝ → ℝ) : List ℝ :=
  if method.toLower = "pchip" then
    new_returns.map (fun t => (pchipInterpolate returns pchipVal t).getD 0)
  else
    new_returns.map (fun t => npInterp t (returns.zip density))

end

lemma trapezoid_nil (x : List ℝ) : trapezoid [] x = 0 := rfl

lemma trapezoid_single (y0 : ℝ) (x : List ℝ) : trapezoid [y0] x = 0 := rfl

lemma trapezoid_cons_nil (y : List ℝ) : trapezoid y [] = 0 := by
  cases y with
  | nil => rfl
  | cons a t =>
    cases t with
    | nil => rfl
    | cons b t2 => rfl

lemma trapezoid_cons_single (y : List ℝ) (x0 : ℝ) : trapezoid y [x0] = 0 := by
  cases y with
  | nil => rfl
  | cons a t =>
    cases t with
    | nil => rfl
    | cons b t2 => rfl

lemma trapezoid_cons_cons (y0 y1 x0 x1 : ℝ) (ys xs : List ℝ) :
    trapezoid (y0 :: y1 :: ys) (x0 :: x1 :: xs) =
      (x1 - x0) * (y0 + y1) / 2 + trapezoid (y1 :: ys) (x1 :: xs) := rfl

/-- Rescaling every density value rescales the trapezoidal integral. -/
lemma trapezoid_map_mul (c : ℝ) (y : List ℝ) : ∀ x : List ℝ,
    trapezoid (y.map (fun v => v * c)) x = trapezoid y x * c := by
  induction y with
  | nil => intro x; simp [trapezoid_nil]
  | cons y0 ys ih =>
    intro x
    cases ys with
    | nil => simp [trapezoid_single]
    | cons y1 ys' =>
      cases x with
      | nil => simp [trapezoid_cons_nil]
      | cons x0 xs =>
        cases xs with
        | nil => simp [trapezoid_cons_single]
        | cons x1 xs' =>
          have hmap : (y1 :: ys').map (fun v => v * c) = y1 * c :: ys'.map (fun v => v * c) :=
            List.map_cons _ _ _
          calc trapezoid ((y0 :: y1 :: ys').map (fun v => v * c)) (x0 :: x1 :: xs')
              = (x1 - x0) * (y0 * c + y1 * c) / 2 +
                trapezoid ((y1 :: ys').map (fun v => v * c)) (x1 :: xs') := by
                rw [List.map_cons, hmap, trapezoid_cons_cons, ← hmap]
            _ = (x1 - x0) * (y0 * c + y1 * c) / 2 +
                trapezoid (y1 :: ys') (x1 :: xs') * c := by rw [ih (x1 :: xs')]
            _ = ((x1 - x0) * (y0 + y1) / 2 + trapezoid (y1 :: ys') (x1 :: xs')) * c := by
                ring
            _ = trapezoid (y0 :: y1 :: ys') (x0 :: x1 :: xs') * c := by
                rw [trapezoid_cons_cons]

/-- The recursive trapezoidal rule as a closed finite sum over indices. -/
lemma trapezoid_eq_sum (y : List ℝ) : ∀ x : List ℝ, y.length = x.length →
    trapezoid y x = ∑ i ∈ Finset.range (x.length - 1),
      (x.getD (i + 1) 0 - x.getD i 0) * (y.getD i 0 + y.getD (i + 1) 0) / 2 := by
  induction y with
  | nil =>
    intro x h
    have hx : x = [] := List.eq_nil_of_length_eq_zero h.symm
    subst hx
    simp [trapezoid_nil]
  | cons y0 ys ih =>
    intro x h
    cases x with
    | nil => simp at h
    | cons x0 xs =>
      cases ys with
      | nil =>
        have hxs : xs = [] := by
          simp only [List.length_cons, List.length_nil] at h
          exact List.eq_nil_of_length_eq_zero (by omega)
        subst hxs
        simp [trapezoid_single]
      | cons y1 ys' =>
        cases xs with
        | nil =>
          simp only [List.length_cons, List.length_nil] at h
          omega
        | cons x1 xs' =>
          have h' : (y1 :: ys').length = (x1 :: xs').length := by
            simp only [List.length_cons] at h ⊢; omega
          rw [trapezoid_cons_cons, ih (x1 :: xs') h']
          have hlen : (x0 :: x1 :: xs').length - 1 = xs'.length + 1 := by simp
          have hlen' : (x1 :: xs').length - 1 = xs'.length := by simp
          rw [hlen, hlen', Finset.sum_range_succ']
          simp only [List.getD_cons_succ, List.getD_cons_zero]
          ring

/-- Indexing into a `zipWith` inside the common length range. -/
lemma getD_zipWith (f : ℝ → ℝ → ℝ) (a : List ℝ) : ∀ (b : List ℝ) (i : ℕ),
    i < a.length → i < b.length →
    (List.zipWith f a b).getD i 0 = f (a.getD i 0) (b.getD i 0) := by
  induction a with
  | nil => intro b i ha _; exact absurd ha (Nat.not_lt_zero i)
  | cons a0 as ih =>
    intro b i ha hb
    cases b with
    | nil => exact absurd hb (Nat.not_lt_zero i)
    | cons b0 bs =>
      cases i with
      | zero => simp [List.zipWith_cons_cons, List.getD_cons_zero]
      | succ n =>
        simp only [List.zipWith_cons_cons, List.getD_cons_succ]
        exact ih bs n (by simp at ha; omega) (by simp at hb; omega)

/-- Unpacking into five variables raises on every length except 5. -/
lemma unpack5_eq_none (l : List ℝ) (h : l.length ≠ 5) : unpack5 l = none := by
  rcases l with _ | ⟨a, _ | ⟨b, _ | ⟨c, _ | ⟨d, _ | ⟨e, _ | ⟨f, rest⟩⟩⟩⟩⟩⟩
  · rfl
  · rfl
  · rfl
  · rfl
  · rfl
  · exact absurd rfl h
  · rfl

/-- On a 10-entry parameter vector the effective-parameter computation
succeeds and yields the componentwise `base + slope * tau` values. -/
lemma effectiveParams_len10 (theta : List ℝ) (tau : ℝ) (h : theta.length = 10) :
    effectiveParams theta tau = some (effA theta tau, effB theta tau,
      effRho theta tau, effM theta tau, effSigma theta tau) := by
  rcases theta with _ | ⟨t0, _ | ⟨t1, _ | ⟨t2, _ | ⟨t3, _ | ⟨t4, _ | ⟨t5, _ |
    ⟨t6, _ | ⟨t7, _ | ⟨t8, _ | ⟨t9, rest⟩⟩⟩⟩⟩⟩⟩⟩⟩⟩ <;>
    simp only [List.length_cons, List.length_nil] at h <;> try omega
  have hrest : rest = [] := List.eq_nil_of_length_eq_zero (by omega)
  subst hrest
  rfl

/-- For a parameter vector whose length is neither 10 nor 6, the
effective-parameter computation raises: either the broadcast fails or the
broadcast result does not unpack into exactly five scalars.  (Length 6 is
accepted because numpy stretches the single slope entry across the five
base entries.) -/
lemma effectiveParams_eq_none (theta : List ℝ) (h10 : theta.length ≠ 10)
    (h6 : theta.length ≠ 6) (tau : ℝ) : effectiveParams theta tau = none := by
  unfold effectiveParams broadcast1d
  have h5 : (theta.take 5).length = min 5 theta.length := List.length_take 5 theta
  have hc : ((theta.drop 5).map (fun c => c * tau)).length = theta.length - 5 := by
    simp
  by_cases h1 : (theta.take 5).length = ((theta.drop 5).map (fun c => c * tau)).length
  · rw [if_pos h1]
    have hlen : (List.zipWith (fun x y => x + y) (theta.take 5)
        ((theta.drop 5).map (fun c => c * tau))).length ≠ 5 := by
      rw [List.length_zipWith]
      rw [h5, hc] at h1 ⊢
      omega
    simp only [Option.some_bind]
    exact unpack5_eq_none _ hlen
  · rw [if_neg h1]
    by_cases h2 : (theta.take 5).length = 1
    · rw [if_pos h2]
      have hlen : (((theta.drop 5).map (fun c => c * tau)).map
          (fun y => (theta.take 5).getD 0 0 + y)).length ≠ 5 := by
        rw [List.length_map]
        rw [h5] at h2
        rw [hc]
        omega
      simp only [Option.some_bind]
      exact unpack5_eq_none _ hlen
    · rw [if_neg h2]
      by_cases h3 : ((theta.drop 5).map (fun c => c * tau)).length = 1
      · exfalso
        rw [hc] at h3
        rw [h5] at h1 h2
        omega
      · rw [if_neg h3]
        rfl

/-- When the four no-arbitrage conditions hold at the first maturity, the
checker moves on to the remaining maturities. -/
lemma check_svi_constraints_cons_of_ok (theta : List ℝ) (h : theta.length = 10)
    (t : ℝ) (rest : List ℝ) (hok : sviOK theta t) :
    check_svi_constraints theta (t :: rest) = check_svi_constraints theta rest := by
  obtain ⟨hb, hr, hs, ha⟩ := hok
  simp only [check_svi_constraints, effectiveParams_len10 theta t h]
  rw [if_neg (not_le.mpr hb), if_neg (not_le.mpr hr), if_neg (not_le.mpr hs),
    if_neg (not_le.mpr ha)]

/-- When some no-arbitrage condition fails at the first maturity, the
checker returns `False` immediately. -/
lemma check_svi_constraints_cons_of_bad (theta : List ℝ) (h : theta.length = 10)
    (t : ℝ) (rest : List ℝ) (hbad : ¬ sviOK theta t) :
    check_svi_constraints theta (t :: rest) = some false := by
  simp only [check_svi_constraints, effectiveParams_len10 theta t h]
  by_cases hb : effB theta t ≤ 0
  · rw [if_pos hb]
  · rw [if_neg hb]
    by_cases hr : 1 ≤ |effRho theta t|
    · rw [if_pos hr]
    · rw [if_neg hr]
      by_cases hs : effSigma theta t ≤ 0
      · rw [if_pos hs]
      · rw [if_neg hs]
        by_cases ha : effA theta t + effB theta t * effSigma theta t *
            Real.sqrt (1 - effRho theta t ^ 2) ≤ 0
        · rw [if_pos ha]
        · exact absurd ⟨not_le.mp hb, not_le.mp hr, not_le.mp hs, not_le.mp ha⟩ hbad

/-- C2: for every 10-entry parameter vector, `svi_model` forms the five
effective parameters as `base + slope * tau` and returns, pointwise at each
log-moneyness value, `a + b*(rho*(k-m) + sqrt((k-m)^2 + sigma^2))` computed
from those effective parameters. -/
theorem svi_model_spec (theta k : List ℝ) (tau : ℝ) (h : theta.length = 10) :
    svi_model theta k tau = some (k.map (fun x =>
      effA theta tau + effB theta tau * (effRho theta tau * (x - effM theta tau) +
        Real.sqrt ((x - effM theta tau) ^ 2 + effSigma theta tau ^ 2)))) := by
  unfold svi_model
  rw [effectiveParams_len10 theta tau h]

/-- Witness for C2 at theta = [0,1,0,0,1,0,0,0,0,0], k = [0], tau = 2. -/
theorem svi_model_spec_witness :
    (([0, 1, 0, 0, 1, 0, 0, 0, 0, 0] : List ℝ).length = 10) ∧
    svi_model [0, 1, 0, 0, 1, 0, 0, 0, 0, 0] [0] 2 = some [1] := by
  refine ⟨rfl, ?_⟩
  rw [svi_model_spec [0, 1, 0, 0, 1, 0, 0, 0, 0, 0] [0] 2 rfl]
  norm_num [effA, effB, effRho, effM, effSigma, List.getD_cons_zero,
    List.getD_cons_succ, Real.sqrt_one]

/-- C3: for every 10-entry parameter vector, the constraint checker returns
`True` iff all four no-arbitrage conditions hold at every supplied maturity,
returns `False` iff some condition fails somewhere, and in particular an
effective `b` of -0.1 at a supplied maturity forces `False`. -/
theorem check_svi_constraints_spec (theta ttms : List ℝ) (h : theta.length = 10) :
    (check_svi_constraints theta ttms = some true ↔ ∀ tau ∈ ttms, sviOK theta tau) ∧
    (check_svi_constraints theta ttms = some false ↔ ¬ ∀ tau ∈ ttms, sviOK theta tau) ∧
    (∀ tau ∈ ttms, effB theta tau = -0.1 →
      check_svi_constraints theta ttms = some false) := by
  have key : ∀ l : List ℝ,
      (check_svi_constraints theta l = some true ↔ ∀ tau ∈ l, sviOK theta tau) ∧
      (check_svi_constraints theta l = some false ↔ ¬ ∀ tau ∈ l, sviOK theta tau) := by
    intro l
    induction l with
    | nil => simp [check_svi_constraints]
    | cons t rest ih =>
      by_cases hok : sviOK theta t
      · rw [check_svi_constraints_cons_of_ok theta h t rest hok, ih.1, ih.2]
        simp [List.forall_mem_cons, hok]
      · rw [check_svi_constraints_cons_of_bad theta h t rest hok]
        simp [List.forall_mem_cons, hok]
  refine ⟨(key ttms).1, (key ttms).2, ?_⟩
  intro tau htau hB
  apply (key ttms).2.mpr
  intro hall
  have hb := (hall tau htau).1
  rw [hB] at hb
  norm_num at hb

/-- Witness for C3 at theta = [0,1,0,0,1,0,0,0,0,0], maturities [1]. -/
theorem check_svi_constraints_spec_witness :
    (([0, 1, 0, 0, 1, 0, 0, 0, 0, 0] : List ℝ).length = 10) ∧
    check_svi_constraints [0, 1, 0, 0, 1, 0, 0, 0, 0, 0] [1] = some true := by
  refine ⟨rfl, ?_⟩
  apply (check_svi_constraints_spec [0, 1, 0, 0, 1, 0, 0, 0, 0, 0] [1] rfl).1.mpr
  intro tau htau
  have htau1 : tau = 1 := by simpa using htau
  subst htau1
  refine ⟨?_, ?_, ?_, ?_⟩ <;>
    norm_num [effA, effB, effRho, effM, effSigma, sviOK, List.getD_cons_zero,
      List.getD_cons_succ, Real.sqrt_one]

/-- C6 amended: a parameter vector whose length is neither 10 nor 6 makes
both `svi_model` and `check_svi_constraints` (the latter on any non-empty
maturity list) raise rather than return a value; a 6-entry vector, however,
is silently accepted because numpy broadcasting stretches its single slope
entry across all five base parameters, and any malformed vector passes
`check_svi_constraints` silently when the maturity list is empty. -/
theorem svi_shape_error (theta : List ℝ) (h10 : theta.length ≠ 10)
    (h6 : theta.length ≠ 6) :
    (∀ k : List ℝ, ∀ tau : ℝ, svi_model theta k tau = none) ∧
    (∀ tau : ℝ, ∀ rest : List ℝ, check_svi_constraints theta (tau :: rest) = none) := by
  constructor
  · intro k tau
    unfold svi_model
    rw [effectiveParams_eq_none theta h10 h6 tau]
  · intro tau rest
    simp only [check_svi_constraints]
    rw [effectiveParams_eq_none theta h10 h6 tau]

/-- C6 counterexample: the 6-entry vector [1,1,0,0,1,0] has length ≠ 10, yet
`svi_model` and `check_svi_constraints` both return a value instead of
failing: numpy broadcasting silently stretches the single slope entry. -/
theorem svi_len6_counterexample :
    (([1, 1, 0, 0, 1, 0] : List ℝ).length ≠ 10) ∧
    (svi_model [1, 1, 0, 0, 1, 0] [0] 1).isSome = true ∧
    (check_svi_constraints [1, 1, 0, 0, 1, 0] [1]).isSome = true := by
  refine ⟨by norm_num, rfl, ?_⟩
  have he : effectiveParams [1, 1, 0, 0, 1, 0] (1 : ℝ) = some (1, 1, 0, 0, 1) := by
    rw [show effectiveParams [1, 1, 0, 0, 1, 0] (1 : ℝ) =
      some (1 + 0 * 1, 1 + 0 * 1, 0 + 0 * 1, 0 + 0 * 1, 1 + 0 * 1) from rfl]
    norm_num
  simp only [check_svi_constraints, he]
  norm_num [Real.sqrt_one]

/-- Witness for the amended C6 at theta = [1,2,3]. -/
theorem svi_shape_error_witness :
    (([1, 2, 3] : List ℝ).length ≠ 10) ∧ (([1, 2, 3] : List ℝ).length ≠ 6) ∧
    svi_model [1, 2, 3] [0] 1 = none ∧
    check_svi_constraints [1, 2, 3] [1] = none :=
  ⟨by norm_num, by norm_num,
    (svi_shape_error [1, 2, 3] (by norm_num) (by norm_num)).1 [0] 1,
    (svi_shape_error [1, 2, 3] (by norm_num) (by norm_num)).2 1 []⟩

/-- C5 counterexample: a strictly negative time-to-maturity does not raise:
`compute_density_moments` silently returns a moment set for ttm = -5. -/
theorem compute_density_moments_negative_ttm :
    ((-5 : ℝ) ≤ 0) ∧ (compute_density_moments [0, 1] [1, 1] (-5)).isSome = true := by
  refine ⟨by norm_num, ?_⟩
  unfold compute_density_moments
  rw [if_neg (by norm_num : ¬ ((-5 : ℝ) = 0))]
  rfl

/-- C5 amended: the moment computation raises (the Python division
`365 / ttm` is a ZeroDivisionError) exactly when ttm = 0; every non-zero
ttm, negative values included, silently yields a moment set scaled by
`365 / ttm`. -/
theorem compute_density_moments_none_iff (ret density : List ℝ) (ttm : ℝ) :
    compute_density_moments ret density ttm = none ↔ ttm = 0 := by
  by_cases h : ttm = 0 <;> simp [compute_density_moments, h]

/-- C1: at the failing input iv = [0,1,0], log_ret = [0,1,2], the code's
interior second derivative at index 1 divides the three-point numerator by
`(log_ret[2] - log_ret[0])^2 = 4` and returns -1/2, whereas the documented
three-point formula with the local spacing `log_ret[2] - log_ret[1] = 1`
gives -2: the code disagrees with its own boundary stencils (which divide
by the adjacent spacing squared) and with its docstring by a factor of 4. -/
theorem compute_iv_derivatives_interior :
    ((compute_iv_derivatives [0, 1, 0] [0, 1, 2]).2).getD 1 0 = -(1 / 2) ∧
    (([0, 1, 0] : List ℝ).getD 2 0 - 2 * ([0, 1, 0] : List ℝ).getD 1 0 +
        ([0, 1, 0] : List ℝ).getD 0 0) /
      (([0, 1, 2] : List ℝ).getD 2 0 - ([0, 1, 2] : List ℝ).getD 1 0) ^ 2 = -2 ∧
    ((-(1 / 2) : ℝ) ≠ -2) := by
  refine ⟨?_, ?_, by norm_num⟩
  · rw [show ((compute_iv_derivatives [0, 1, 0] [0, 1, 2]).2).getD 1 0 =
      ((0 : ℝ) - 2 * 1 + 0) / ((2 : ℝ) - 0) ^ 2 from rfl]
    norm_num
  · norm_num [List.getD_cons_zero, List.getD_cons_succ]

/-- C4: the Bitcoin premium is the annualized difference of the P- and
Q-expected returns, each a trapezoidal integral of `ret` times the density;
with no Q density the Q expectation is `risk_free_rate * ttm / 365`. -/
theorem calculate_bitcoin_premium_spec (ret p_density q : List ℝ) (ttm rf : ℝ)
    (hp : p_density.length = ret.length) (hq : q.length = ret.length)
    (ht : 0 < ttm) :
    calculate_bitcoin_premium ret p_density (some q) ttm rf =
      ((∑ i ∈ Finset.range (ret.length - 1),
          (ret.getD (i + 1) 0 - ret.getD i 0) *
            (ret.getD i 0 * p_density.getD i 0 +
              ret.getD (i + 1) 0 * p_density.getD (i + 1) 0) / 2) -
        (∑ i ∈ Finset.range (ret.length - 1),
          (ret.getD (i + 1) 0 - ret.getD i 0) *
            (ret.getD i 0 * q.getD i 0 +
              ret.getD (i + 1) 0 * q.getD (i + 1) 0) / 2)) * 365 / ttm ∧
    calculate_bitcoin_premium ret p_density none ttm rf =
      ((∑ i ∈ Finset.range (ret.length - 1),
          (ret.getD (i + 1) 0 - ret.getD i 0) *
            (ret.getD i 0 * p_density.getD i 0 +
              ret.getD (i + 1) 0 * p_density.getD (i + 1) 0) / 2) -
        rf * ttm / 365) * 365 / ttm := by
  have hE : ∀ d : List ℝ, d.length = ret.length →
      trapezoid (List.zipWith (fun x v => x * v) ret d) ret =
      ∑ i ∈ Finset.range (ret.length - 1),
        (ret.getD (i + 1) 0 - ret.getD i 0) *
          (ret.getD i 0 * d.getD i 0 + ret.getD (i + 1) 0 * d.getD (i + 1) 0) / 2 := by
    intro d hd
    have hlen : (List.zipWith (fun x v => x * v) ret d).length = ret.length := by
      simp [List.length_zipWith, hd]
    rw [trapezoid_eq_sum _ _ (by rw [hlen])]
    apply Finset.sum_congr rfl
    intro i hi
    have hi' := Finset.mem_range.mp hi
    have h1 : i < ret.length := by omega
    have h2 : i + 1 < ret.length := by omega
    rw [getD_zipWith _ _ _ _ h1 (by omega), getD_zipWith _ _ _ _ h2 (by omega)]
  constructor
  · show (trapezoid (List.zipWith (fun x v => x * v) ret p_density) ret -
        trapezoid (List.zipWith (fun x v => x * v) ret q) ret) * 365 / ttm = _
    rw [hE p_density hp, hE q hq]
  · show (trapezoid (List.zipWith (fun x v => x * v) ret p_density) ret -
        rf * ttm / 365) * 365 / ttm = _
    rw [hE p_density hp]

set_option maxRecDepth 4000 in
/-- Witness for C4: equal P and Q densities give premium 0. -/
theorem calculate_bitcoin_premium_spec_witness :
    (([1, 1] : List ℝ).length = ([0, 1] : List ℝ).length) ∧ ((0 : ℝ) < 365) ∧
    calculate_bitcoin_premium [0, 1] [1, 1] (some [1, 1]) 365 0 = 0 := by
  refine ⟨rfl, by norm_num, ?_⟩
  have h := (calculate_bitcoin_premium_spec [0, 1] [1, 1] [1, 1] 365 0 rfl rfl
    (by norm_num)).1
  have l1 : (([0, 1] : List ℝ).length - 1) = 1 := by simp
  rw [h, l1]
  simp only [Finset.sum_range_one]
  norm_num [show ([0, 1] : List ℝ).getD 1 0 = 1 from rfl,
    show ([0, 1] : List ℝ).getD 0 0 = 0 from rfl,
    show ([1, 1] : List ℝ).getD 1 0 = 1 from rfl,
    show ([1, 1] : List ℝ).getD 0 0 = 1 from rfl]

/-- C7: normalization rescales by the reciprocal of the trapezoidal integral
when the integral is strictly positive and is the identity otherwise. -/
theorem normalize_density_spec (density returns : List ℝ)
    (h : density.length = returns.length) :
    (0 < trapezoid density returns →
      normalize_density density returns =
        density.map (fun v => v * (1 / trapezoid density returns))) ∧
    (trapezoid density returns ≤ 0 →
      normalize_density density returns = density) := by
  constructor
  · intro hpos
    simp only [normalize_density]
    rw [if_pos hpos]
    simp only [div_eq_mul_inv, one_div, one_mul]
  · intro hnp
    simp only [normalize_density]
    rw [if_neg (not_lt.mpr hnp)]

/-- Witness for C7 at density [1,1] on grid [0,1] (integral 1). -/
theorem normalize_density_spec_witness :
    (([1, 1] : List ℝ).length = ([0, 1] : List ℝ).length) ∧
    (0 < trapezoid [1, 1] [0, 1]) ∧
    normalize_density [1, 1] [0, 1] = [1, 1] := by
  have hI : trapezoid [(1 : ℝ), 1] [(0 : ℝ), 1] = 1 := by
    rw [trapezoid_cons_cons, trapezoid_single]
    norm_num
  have hpos : (0 : ℝ) < trapezoid [1, 1] [0, 1] := by rw [hI]; norm_num
  refine ⟨rfl, hpos, ?_⟩
  have h := (normalize_density_spec [1, 1] [0, 1] rfl).1 hpos
  rw [h, hI]
  norm_num

/-- C8: normalization is idempotent whenever the first normalization sees a
strictly positive integral. -/
theorem normalize_density_idempotent (density returns : List ℝ)
    (h : 0 < trapezoid density returns) :
    normalize_density (normalize_density density returns) returns =
      normalize_density density returns := by
  have h1 : normalize_density density returns =
      density.map (fun v => v / trapezoid density returns) := by
    simp only [normalize_density]
    rw [if_pos h]
  have h3 : trapezoid (density.map (fun v => v / trapezoid density returns)) returns
      = 1 := by
    rw [show (fun v => v / trapezoid density returns) =
        (fun v => v * (trapezoid density returns)⁻¹) from
      funext fun v => div_eq_mul_inv v _]
    rw [trapezoid_map_mul]
    exact mul_inv_cancel₀ (ne_of_gt h)
  rw [h1]
  simp only [normalize_density]
  rw [h3, if_pos (by norm_num : (0 : ℝ) < 1)]
  simp

/-- Witness for C8 at density [1,1] on grid [0,1]. -/
theorem normalize_density_idempotent_witness :
    (0 < trapezoid [1, 1] [0, 1]) ∧
    normalize_density (normalize_density [1, 1] [0, 1]) [0, 1] =
      normalize_density [1, 1] [0, 1] := by
  have hI : trapezoid [(1 : ℝ), 1] [(0 : ℝ), 1] = 1 := by
    rw [trapezoid_cons_cons, trapezoid_single]
    norm_num
  have hpos : (0 : ℝ) < trapezoid [1, 1] [0, 1] := by rw [hI]; norm_num
  exact ⟨hpos, normalize_density_idempotent [1, 1] [0, 1] hpos⟩

/-- The non-extrapolating pchip interpolant yields NaN (`none`) at every
point strictly below all grid points or strictly above all grid points. -/
lemma pchipInterpolate_eq_none (returns : List ℝ) (pchipVal : ℝ → ℝ) (t : ℝ)
    (hout : (∀ x ∈ returns, t < x) ∨ (∀ x ∈ returns, x < t)) :
    pchipInterpolate returns pchipVal t = none := by
  cases returns with
  | nil => rfl
  | cons r0 rs =>
    have hne : (r0 :: rs) ≠ [] := by simp
    have hxn : (r0 :: rs).getLast? = some ((r0 :: rs).getLast hne) :=
      List.getLast?_eq_getLast _ hne
    have hmem : (r0 :: rs).getLast hne ∈ r0 :: rs := List.getLast_mem hne
    simp only [pchipInterpolate]
    rw [hxn]
    show (if t < r0 ∨ (r0 :: rs).getLast hne < t then none else some (pchipVal t))
      = none
    rcases hout with hlo | hhi
    · exact if_pos (Or.inl (hlo r0 (by simp)))
    · exact if_pos (Or.inr (hhi _ hmem))

/-- The `np.interp` branch with fill value 0 returns 0 at every point
strictly below all grid points or strictly above all grid points. -/
lemma npInterp_eq_zero (t : ℝ) (ps : List (ℝ × ℝ))
    (h : (∀ p ∈ ps, t < p.1) ∨ (∀ p ∈ ps, p.1 < t)) : npInterp t ps = 0 := by
  induction ps with
  | nil => rfl
  | cons p ps' ih =>
    obtain ⟨x0, y0⟩ := p
    cases ps' with
    | nil =>
      rcases h with hlo | hhi
      · have hx := hlo (x0, y0) (by simp)
        simp only [npInterp]
        rw [if_pos hx]
      · have hx := hhi (x0, y0) (by simp)
        simp only [npInterp]
        rw [if_neg (not_lt.mpr (le_of_lt hx)), if_pos hx]
    | cons q qs =>
      obtain ⟨x1, y1⟩ := q
      rcases h with hlo | hhi
      · have hx := hlo (x0, y0) (by simp)
        simp only [npInterp]
        rw [if_pos hx]
      · have hx0 := hhi (x0, y0) (by simp)
        have hx1 := hhi (x1, y1) (by simp)
        simp only [npInterp]
        rw [if_neg (not_lt.mpr (le_of_lt hx0)), if_neg (not_le.mpr hx1)]
        exact ih (Or.inr (fun p hp => hhi p (List.mem_cons_of_mem _ hp)))

/-- C9: at any target point strictly outside the closed interval spanned by
the source grid, `interpolate_density` returns exactly 0, for the pchip
method (NaN from non-extrapolation coerced to 0) and for every non-pchip
method string (the linear branch with boundary fill 0), regardless of the
in-domain pchip values. -/
theorem interpolate_density_outside (returns density new_returns : List ℝ)
    (pchipVal : ℝ → ℝ) (method : String) (i : ℕ) (t : ℝ)
    (ht : new_returns[i]? = some t)
    (hout : (∀ x ∈ returns, t < x) ∨ (∀ x ∈ returns, x < t)) :
    (interpolate_density returns density new_returns method pchipVal)[i]? =
      some 0 := by
  unfold interpolate_density
  by_cases hm : method.toLower = "pchip"
  · rw [if_pos hm, List.getElem?_map, ht, Option.map_some',
      pchipInterpolate_eq_none returns pchipVal t hout]
    rfl
  · rw [if_neg hm, List.getElem?_map, ht, Option.map_some']
    have h' : (∀ p ∈ returns.zip density, t < p.1) ∨
        (∀ p ∈ returns.zip density, p.1 < t) := by
      rcases hout with hlo | hhi
      · refine Or.inl ?_
        rintro ⟨a, b⟩ hp
        exact hlo a (List.of_mem_zip hp).1
      · refine Or.inr ?_
        rintro ⟨a, b⟩ hp
        exact hhi a (List.of_mem_zip hp).1
    rw [npInterp_eq_zero t _ h']

/-- Witness for C9: the point 5 lies above the grid [0,1]; both methods
return 0 there. -/
theorem interpolate_density_outside_witness :
    (([5] : List ℝ)[0]? = some 5) ∧ (∀ x ∈ ([0, 1] : List ℝ), x < 5) ∧
    (interpolate_density [0, 1] [1, 1] [5] "pchip" (fun _ => 37))[0]? = some 0 ∧
    (interpolate_density [0, 1] [1, 1] [5] "linear" (fun _ => 37))[0]? = some 0 := by
  have hup : ∀ x ∈ ([0, 1] : List ℝ), x < 5 := by
    intro x hx
    fin_cases hx <;> norm_num
  refine ⟨rfl, hup, ?_, ?_⟩
  · exact interpolate_density_outside [0, 1] [1, 1] [5] (fun _ => 37) "pchip" 0 5
      rfl (Or.inr hup)
  · exact interpolate_density_outside [0, 1] [1, 1] [5] (fun _ => 37) "linear" 0 5
      rfl (Or.inr hup)

/-- C10: the constraint checker called with an empty list of maturities
returns `True` for every parameter vector: the four no-arbitrage conditions
are only tested at supplied maturities, so the empty list passes vacuously. -/
theorem check_svi_constraints_empty (theta : List ℝ) :
    check_svi_constraints theta [] = some true := rfl
